import Mathlib

/-!
Verification development for the per-handle open-file engine of asymmetricfs
(src/implementation.cpp).  The filesystem state (handle tables, per-file
buffer/dirty state, backing directory) is shallowly embedded; each callback
of the source is translated into a pure function on that state.

Modelling conventions, stated once:
* Bytes are `Nat`, byte strings are `List Nat` (std::string used as a byte
  container in the source).
* POSIX flag words are `Nat` bit masks with the Linux numeric values.
* Return codes are `Int`, following the -errno convention of the source.
* The backing directory is modelled with inode identities so that an open
  descriptor keeps designating its file across `rename`.  A descriptor
  returned by `openat` is modelled by the inode number it designates.
* The gpg child process (subprocess.h, not part of this tree) is external
  I/O; a decryption run is modelled by an oracle `Option (List Nat)`
  (`some plain` = clean exit with output `plain`, `none` = nonzero exit),
  and an encryption run by a `Bool` oracle (exit status) plus a symbolic
  `flushed` node recording exactly what was written where.
* `fd_t` is declared in implementation.h, which is not in this tree.
  Modelled from the spec: "a monotonically increasing non-negative
  integer", i.e. `Nat`.
-/

/-- Association-list lookup, first binding wins (std::map::find). -/
def lookupA {α β : Type} [DecidableEq α] : List (α × β) → α → Option β
  | [], _ => none
  | (k0, v) :: t, k => if k0 = k then some v else lookupA t k

/-- Remove every binding of a key (std::map::erase). -/
def eraseA {α β : Type} [DecidableEq α] : List (α × β) → α → List (α × β)
  | [], _ => []
  | (k0, v0) :: t, k => if k0 = k then eraseA t k else (k0, v0) :: eraseA t k

/-- Overwrite the binding of a key, appending it when absent
(std::map element assignment through an iterator / operator[]). -/
def setA {α β : Type} [DecidableEq α] : List (α × β) → α → β → List (α × β)
  | [], k, v => [(k, v)]
  | (k0, v0) :: t, k, v =>
    if k0 = k then (k, v) :: eraseA t k else (k0, v0) :: setA t k v

/-- Insert that keeps an existing binding (std::map::insert). -/
def insertA {α β : Type} [DecidableEq α] (l : List (α × β)) (k : α) (v : β) :
    List (α × β) :=
  match lookupA l k with
  | some _ => l
  | none => l ++ [(k, v)]

theorem lookupA_mem {α β : Type} [DecidableEq α] {l : List (α × β)} {k : α}
    {v : β} (h : lookupA l k = some v) : (k, v) ∈ l := by
  induction l with
  | nil => simp [lookupA] at h
  | cons p t ih =>
    obtain ⟨k0, v0⟩ := p
    by_cases hk : k0 = k
    · subst hk
      simp [lookupA] at h
      simp [h]
    · simp [lookupA, hk] at h
      exact List.mem_cons_of_mem _ (ih h)

theorem lookupA_setA_self {α β : Type} [DecidableEq α] (l : List (α × β))
    (k : α) (v : β) : lookupA (setA l k v) k = some v := by
  induction l with
  | nil => simp [setA, lookupA]
  | cons p t ih =>
    obtain ⟨k0, v0⟩ := p
    by_cases hk : k0 = k
    · simp [setA, hk, lookupA]
    · simp [setA, hk, lookupA, ih]

theorem lookupA_eraseA_ne {α β : Type} [DecidableEq α] (l : List (α × β))
    {k k! : α} (h : k! ≠ k) :
    lookupA (eraseA l k) k! = lookupA l k! := by
  induction l with
  | nil => rfl
  | cons p t ih =>
    obtain ⟨k0, v0⟩ := p
    by_cases hk : k0 = k
    · subst hk
      simp [eraseA, lookupA, Ne.symm h, ih]
    · by_cases hq : k0 = k!
      · simp [eraseA, hk, lookupA, hq, h]
      · simp [eraseA, hk, lookupA, hq, ih]

theorem lookupA_setA_ne {α β : Type} [DecidableEq α] (l : List (α × β))
    {k k! : α} (v : β) (h : k! ≠ k) :
    lookupA (setA l k v) k! = lookupA l k! := by
  induction l with
  | nil => simp [setA, lookupA, Ne.symm h]
  | cons p t ih =>
    obtain ⟨k0, v0⟩ := p
    by_cases hk : k0 = k
    · subst hk
      simp [setA, lookupA, Ne.symm h, lookupA_eraseA_ne t h]
    · by_cases hq : k0 = k!
      · simp [setA, hk, lookupA, hq, h]
      · simp [setA, hk, lookupA, hq, ih]

theorem lookupA_eraseA_self {α β : Type} [DecidableEq α] (l : List (α × β))
    (k : α) : lookupA (eraseA l k) k = none := by
  induction l with
  | nil => rfl
  | cons p t ih =>
    obtain ⟨k0, v0⟩ := p
    by_cases hk : k0 = k
    · simp [eraseA, hk, ih]
    · simp [eraseA, hk, lookupA, ih]

theorem eraseA_eraseA {α β : Type} [DecidableEq α] (l : List (α × β))
    (k : α) : eraseA (eraseA l k) k = eraseA l k := by
  induction l with
  | nil => rfl
  | cons p t ih =>
    obtain ⟨k0, v0⟩ := p
    by_cases hk : k0 = k
    · simp [eraseA, hk, ih]
    · simp [eraseA, hk, ih]

theorem setA_setA {α β : Type} [DecidableEq α] (l : List (α × β)) (k : α)
    (v : β) : setA (setA l k v) k v = setA l k v := by
  induction l with
  | nil => simp [setA, eraseA]
  | cons p t ih =>
    obtain ⟨k0, v0⟩ := p
    by_cases hk : k0 = k
    · simp [setA, hk, eraseA_eraseA]
    · simp [setA, hk, ih]

theorem mem_eraseA {α β : Type} [DecidableEq α] {l : List (α × β)} {k : α}
    {p : α × β} (h : p ∈ eraseA l k) : p ∈ l := by
  induction l with
  | nil => exact absurd h (by simp [eraseA])
  | cons q t ih =>
    obtain ⟨k0, v0⟩ := q
    by_cases hk : k0 = k
    · simp only [eraseA, if_pos hk] at h
      exact List.mem_cons_of_mem _ (ih h)
    · simp only [eraseA, if_neg hk] at h
      rcases List.mem_cons.mp h with h1 | h1
      · simp [h1]
      · exact List.mem_cons_of_mem _ (ih h1)

theorem mem_setA {α β : Type} [DecidableEq α] {l : List (α × β)} {k : α}
    {v : β} {p : α × β} (h : p ∈ setA l k v) : p = (k, v) ∨ p ∈ l := by
  induction l with
  | nil =>
    simp [setA] at h
    exact Or.inl h
  | cons q t ih =>
    obtain ⟨k0, v0⟩ := q
    by_cases hk : k0 = k
    · simp only [setA, if_pos hk] at h
      rcases List.mem_cons.mp h with h1 | h1
      · exact Or.inl h1
      · exact Or.inr (List.mem_cons_of_mem _ (mem_eraseA h1))
    · simp only [setA, if_neg hk] at h
      rcases List.mem_cons.mp h with h1 | h1
      · right
        simp [h1]
      · rcases ih h1 with h2 | h2
        · exact Or.inl h2
        · exact Or.inr (List.mem_cons_of_mem _ h2)

theorem mem_insertA {α β : Type} [DecidableEq α] {l : List (α × β)} {k : α}
    {v : β} {p : α × β} (h : p ∈ insertA l k v) : p = (k, v) ∨ p ∈ l := by
  unfold insertA at h
  rcases hl : lookupA l k with _ | w
  · rw [hl] at h
    rcases List.mem_append.mp h with h1 | h1
    · exact Or.inr h1
    · simp at h1
      exact Or.inl h1
  · rw [hl] at h
    exact Or.inr h

/-! POSIX constants with their Linux numeric values, as seen by the source. -/

def O_RDONLY : Nat := 0
def O_WRONLY : Nat := 1
def O_RDWR : Nat := 2
def O_ACCMODE : Nat := 3
def O_CREAT : Nat := 64
def O_EXCL : Nat := 128
def O_APPEND : Nat := 1024
def R_OK : Nat := 4
def INT_MAX : Nat := 2147483647

def eperm : Int := 1
def enoent : Int := 2
def eio : Int := 5
def ebadf : Int := 9
def eacces : Int := 13
def efault : Int := 14
def eexist : Int := 17
def einval : Int := 22

/-- Clear the bits of `mask` in `flags` (the source's `flags &= ~mask`).
Sound because `flags &&& mask` is a bitwise subset of `flags`. -/
def clearBits (flags mask : Nat) : Nat := flags - (flags &&& mask)

/-- std::string::resize: truncate to `n`, or pad with NUL bytes up to `n`. -/
def listResize (l : List Nat) (n : Nat) : List Nat :=
  l.take n ++ List.replicate (n - l.length) 0

/-- Effect of asymmetricfs::write's resize-then-memcpy on the buffer
(implementation.cpp lines 980-982): grow to
`max(buffer.size(), offset + size)`, then overwrite `bs` at `off`. -/
def writeBytes (l : List Nat) (off : Nat) (bs : List Nat) : List Nat :=
  let r := listResize l (max l.length (off + bs.length))
  r.take off ++ bs ++ r.drop (off + bs.length)

theorem listResize_length (l : List Nat) (n : Nat) :
    (listResize l n).length = n := by
  simp [listResize]
  omega

theorem writeBytes_length (l : List Nat) (off : Nat) (bs : List Nat) :
    (writeBytes l off bs).length = max l.length (off + bs.length) := by
  simp [writeBytes, listResize_length]
  omega

/-- Content of one backing file.  Ciphertext produced by the gpg child is
not computable here, so a flush is recorded symbolically: `flushed recips
plain append prev` is the file after the encrypt child wrote the encryption
of `plain` for `recips` onto a descriptor whose file held `prev` (at the
end when the descriptor carries O_APPEND, from position zero otherwise). -/
inductive BContent where
  | bytes (bs : List Nat) : BContent
  | flushed (recips : List String) (plain : List Nat) (append : Bool)
      (prev : BContent) : BContent
  deriving DecidableEq

/-- fstat-reported emptiness of a backing file.  An armored gpg message is
never empty, so a `flushed` file has nonzero size. -/
def BContent.sizeZero : BContent → Bool
  | .bytes bs => bs.isEmpty
  | .flushed _ _ _ _ => false

/-- fstat-reported size, when it is determined by the model (the byte
length of symbolic ciphertext is not). -/
def BContent.size : BContent → Option Nat
  | .bytes bs => some bs.length
  | .flushed _ _ _ _ => none

/-- The backing directory: paths name inodes, inodes hold contents.  An
open backing descriptor is modelled by the inode it designates, which is
what keeps it attached to its file across rename. -/
structure HostFs where
  dirents : List (String × Nat)
  inodes : List (Nat × BContent)
  nextIno : Nat
  deriving DecidableEq

/-- Host openat relative to the backing root.  Pre-existing files are
taken to be accessible (their permission bits are not modelled), so this
never fails with eacces; with O_CREAT|O_EXCL on an existing path it fails
with eexist, and without O_CREAT on a missing path with enoent. -/
def hostOpenat (h : HostFs) (p : String) (flags : Nat) :
    Except Int (Nat × HostFs) :=
  match lookupA h.dirents p with
  | some ino =>
    if flags &&& O_CREAT ≠ 0 ∧ flags &&& O_EXCL ≠ 0 then .error eexist
    else .ok (ino, h)
  | none =>
    if flags &&& O_CREAT ≠ 0 then
      .ok (h.nextIno,
        { dirents := setA h.dirents p h.nextIno,
          inodes := setA h.inodes h.nextIno (.bytes []),
          nextIno := h.nextIno + 1 })
    else .error enoent

/-- Per-logical-file open state, asymmetricfs::internal.  The `open_`
flag makes `close` single-shot, exactly as in the source. -/
structure Internal where
  fd : Nat
  flags : Nat
  references : Nat
  path : String
  buffer_set : Bool
  dirty : Bool
  buffer : List Nat
  open_ : Bool
  deriving DecidableEq

/-- internal::load_buffer (implementation.cpp lines 133-248).  The mmap,
terminator scan and chunked gpg communication are external I/O; the joint
outcome of the decrypt children is the oracle `g` (`some plain` = all
children exited cleanly producing `plain` in file order, `none` = a child
exited nonzero, which sets `buffer_set = false` and returns eio).  The
early paths are the source's: an already-set buffer is a no-op, a zero
fstat size yields an empty set buffer, and `dirty` is cleared up front. -/
def Internal.load_buffer (st : Internal) (h : HostFs) (g : Option (List Nat)) :
    Int × Internal :=
  if st.buffer_set then (0, st)
  else
    let st1 := { st with dirty := false, buffer := [] }
    match lookupA h.inodes st.fd with
    | none => (ebadf, st1)
    | some c =>
      if c.sizeZero then (0, { st1 with buffer_set := true })
      else
        match g with
        | some plain => (0, { st1 with buffer_set := true, buffer := plain })
        | none => (eio, { st1 with buffer_set := false })

/-- internal::close (implementation.cpp lines 95-131).  When dirty, the
encrypt child is spawned with its stdout on the backing descriptor and fed
the buffer; its exit status is the oracle `fOk` (a failure yields -eio).
The write of its output is recorded on the inode.  The final Bool reports
whether a flush was performed, and the descriptor close is taken to
succeed. -/
def Internal.close (st : Internal) (recips : List String) (h : HostFs)
    (fOk : Bool) : Int × Internal × HostFs × Bool :=
  if st.open_ = false then (0, st, h, false)
  else if st.dirty then
    let app : Bool := decide (st.flags &&& O_APPEND ≠ 0)
    let h! :=
      match lookupA h.inodes st.fd with
      | some c =>
        let c! : BContent := .flushed recips st.buffer app c
        { h with inodes := setA h.inodes st.fd c! }
      | none => h
    ((if fOk then 0 else -eio), { st with dirty := false, open_ := false },
      h!, true)
  else (0, { st with open_ := false }, h, false)

/-- The mount object, class asymmetricfs: mode flag, handle-id counter,
the two handle tables, the recipient list and the backing directory. -/
structure Afs where
  read_ : Bool
  next_ : Nat
  open_paths_ : List (String × Nat)
  open_fds_ : List (Nat × Internal)
  recipients_ : List String
  host : HostFs
  deriving DecidableEq

/-- asymmetricfs::make_rdwr (implementation.cpp lines 45-56).  Note that
the `flags & O_RDONLY` test of the source compares against the value 0 and
is therefore never taken, which the translation preserves. -/
def make_rdwr (r : Bool) (flags : Nat) : Nat :=
  if r = false then flags
  else if flags &&& O_RDONLY ≠ 0 then flags
  else clearBits (clearBits flags O_RDONLY) O_WRONLY ||| O_RDWR

/-- Tail of asymmetricfs::create after a successful openat
(implementation.cpp lines 316-331): allocate the next handle id, insert
the path binding (std::map::insert keeps an existing binding), and insert
a state with refcount 1, a set empty buffer and the O_CREAT-augmented
caller flags. -/
def finishCreate (fs : Afs) (p : String) (infoFlags : Nat) (ino : Nat)
    (h! : HostFs) : Int × Afs × Option Nat :=
  let fd := fs.next_
  let data : Internal :=
    { fd := ino, flags := infoFlags, references := 1, path := p,
      buffer_set := true, dirty := false, buffer := [], open_ := true }
  (0, { fs with next_ := fs.next_ + 1,
                open_paths_ := insertA fs.open_paths_ p fd,
                open_fds_ := insertA fs.open_fds_ fd data,
                host := h! }, some fd)

/-- asymmetricfs::create (implementation.cpp lines 291-332).  O_CREAT is
forced into the caller flags; openat goes through make_rdwr with one
EACCES retry without the upgrade.  The file mode argument only feeds host
permission bits, which are not modelled. -/
def Afs.create (fs : Afs) (p : String) (infoFlags0 : Nat) :
    Int × Afs × Option Nat :=
  let infoFlags := infoFlags0 ||| O_CREAT
  match hostOpenat fs.host p (make_rdwr fs.read_ infoFlags) with
  | .ok (ino, h!) => finishCreate fs p infoFlags ino h!
  | .error e =>
    if fs.read_ = true ∧ infoFlags &&& O_WRONLY ≠ 0 ∧ e = eacces then
      match hostOpenat fs.host p infoFlags with
      | .ok (ino, h!) => finishCreate fs p infoFlags ino h!
      | .error e2 => (-e2, fs, none)
    else (-e, fs, none)

/-- Tail of asymmetricfs::open for a path that was not yet open
(implementation.cpp lines 580-611): allocate the next id and insert a
state whose buffer is set exactly when the backing file fstats to size 0;
an fstat failure is nonfatal and leaves the buffer unset. -/
def finishOpen (fs : Afs) (p : String) (flags : Nat) (ino : Nat)
    (h! : HostFs) : Int × Afs × Option Nat :=
  let fd := fs.next_
  let bset : Bool :=
    match lookupA h!.inodes ino with
    | some c => c.sizeZero
    | none => false
  let data : Internal :=
    { fd := ino, flags := flags, references := 1, path := p,
      buffer_set := bset, dirty := false, buffer := [], open_ := true }
  (0, { fs with next_ := fs.next_ + 1,
                open_paths_ := insertA fs.open_paths_ p fd,
                open_fds_ := insertA fs.open_fds_ fd data,
                host := h! }, some fd)

/-- asymmetricfs::open (implementation.cpp lines 533-612).  An already
open path only bumps the refcount and returns the existing id.  Otherwise,
in write-only mode with read access requested, O_CREAT is strengthened
with O_EXCL; then openat runs through make_rdwr with one EACCES retry
without the upgrade (dead in this model, kept for fidelity). -/
def Afs.openf (fs : Afs) (p : String) (infoFlags : Nat) :
    Int × Afs × Option Nat :=
  match lookupA fs.open_paths_ p with
  | some fd0 =>
    (match lookupA fs.open_fds_ fd0 with
     | some st =>
       let st! := { st with references := st.references + 1 }
       (0, { fs with open_fds_ := setA fs.open_fds_ fd0 st! }, some fd0)
     | none => (0, fs, some fd0))
  | none =>
    let accessMode := infoFlags &&& O_ACCMODE
    let forReading : Bool :=
      decide (accessMode = O_RDWR) || decide (accessMode = O_RDONLY)
    let flags :=
      if fs.read_ = false ∧ forReading = true ∧ infoFlags &&& O_CREAT ≠ 0
      then infoFlags ||| O_EXCL else infoFlags
    match hostOpenat fs.host p (make_rdwr fs.read_ flags) with
    | .ok (ino, h!) => finishOpen fs p flags ino h!
    | .error e =>
      if fs.read_ = true ∧ forReading = false ∧ e = eacces then
        match hostOpenat fs.host p flags with
        | .ok (ino, h!) => finishOpen fs p flags ino h!
        | .error e2 => (-e2, fs, none)
      else (-e, fs, none)

/-- asymmetricfs::read (implementation.cpp lines 627-688).  The returned
list is what the callback memcpy'd into the caller's buffer.  In the
write-only branch the copy starts at `offset` and the count is clamped at
INT_MAX; in the read-enabled branch the source copies from the start of
the buffer (`str.data()`, line 685), not from `str.data() + offset`, and
the translation preserves that. -/
def Afs.read (fs : Afs) (fh : Nat) (size : Nat) (off : Int)
    (g : Option (List Nat)) : Int × Afs × List Nat :=
  match lookupA fs.open_fds_ fh with
  | none => (-ebadf, fs, [])
  | some st =>
    if off < 0 then (0, fs, [])
    else
      let offset := off.toNat
      if fs.read_ = false then
        if st.buffer_set = false ∧ st.flags &&& O_APPEND ≠ 0 then
          (-eacces, fs, [])
        else if st.buffer_set = false ∧ st.flags &&& O_APPEND = 0 ∧
            st.flags &&& O_CREAT = 0 then
          (-eacces, fs, [])
        else
          let str := st.buffer
          if str.length < offset then (0, fs, [])
          else
            let remaining := min (min (str.length - offset) size) INT_MAX
            ((remaining : Int), fs, (str.drop offset).take remaining)
      else
        match Internal.load_buffer st fs.host g with
        | (lret, st1) =>
          let fs1 := { fs with open_fds_ := setA fs.open_fds_ fh st1 }
          if lret ≠ 0 then (-lret, fs1, [])
          else
            let str := st1.buffer
            if str.length ≤ offset then (0, fs1, [])
            else
              let remaining := min (str.length - offset) size
              ((remaining : Int), fs1, str.take remaining)

/-- asymmetricfs::write (implementation.cpp lines 957-986): a zero size
returns 0 before the negative-offset check; otherwise the buffer is grown
to max(buffer.size, offset+size), the bytes are copied in at offset, and
the state is marked dirty.  Nothing is written to the backing file. -/
def Afs.write (fs : Afs) (fh : Nat) (buf : List Nat) (off : Int) :
    Int × Afs :=
  match lookupA fs.open_fds_ fh with
  | none => (-ebadf, fs)
  | some st =>
    if buf.length = 0 then (0, fs)
    else if off < 0 then (-einval, fs)
    else
      let st! := { st with dirty := true,
                           buffer := writeBytes st.buffer off.toNat buf }
      ((buf.length : Int), { fs with open_fds_ := setA fs.open_fds_ fh st! })

/-- asymmetricfs::truncatefd (implementation.cpp lines 343-373).  At
offset 0 the backing file is ftruncated and the buffer cleared and marked
dirty (buffer_set is left as it was); at a positive offset in read mode
the buffer is loaded, resized and marked dirty; otherwise EACCES. -/
def Afs.truncatefd (fs : Afs) (fd : Nat) (off : Int)
    (g : Option (List Nat)) : Int × Afs :=
  match lookupA fs.open_fds_ fd with
  | none => (-ebadf, fs)
  | some st =>
    if off < 0 then (-einval, fs)
    else if off = 0 then
      match lookupA fs.host.inodes st.fd with
      | none => (-ebadf, fs)
      | some _ =>
        let h! := { fs.host with
                    inodes := setA fs.host.inodes st.fd (.bytes []) }
        let st! := { st with buffer := [], dirty := true }
        (0, { fs with host := h!, open_fds_ := setA fs.open_fds_ fd st! })
    else if fs.read_ = true then
      match Internal.load_buffer st fs.host g with
      | (lret, st1) =>
        if lret ≠ 0 then
          (-lret, { fs with open_fds_ := setA fs.open_fds_ fd st1 })
        else
          let st! := { st1 with buffer := listResize st1.buffer off.toNat,
                                dirty := true }
          (0, { fs with open_fds_ := setA fs.open_fds_ fd st! })
    else (-eacces, fs)

/-- asymmetricfs::ftruncate (implementation.cpp lines 334-341). -/
def Afs.ftruncate (fs : Afs) (fh : Nat) (off : Int)
    (g : Option (List Nat)) : Int × Afs :=
  Afs.truncatefd fs fh off g

/-- asymmetricfs::truncate (implementation.cpp lines 900-955).  An open
path delegates to truncatefd.  A closed path is host-truncated at offset
0; at a positive offset in read mode a transient state is opened, loaded,
resized, marked dirty and closed (the close flushes).  The source leaves
the transient buffer_set uninitialized; it is modelled as false, the value
under which load_buffer does the intended work. -/
def Afs.truncate (fs : Afs) (p : String) (off : Int)
    (g : Option (List Nat)) (fOk : Bool) : Int × Afs :=
  if off < 0 then (-einval, fs)
  else
    match lookupA fs.open_paths_ p with
    | some fd => Afs.truncatefd fs fd off g
    | none =>
      if off = 0 then
        match lookupA fs.host.dirents p with
        | some ino =>
          let h! := { fs.host with
                      inodes := setA fs.host.inodes ino (.bytes []) }
          (0, { fs with host := h! })
        | none => (-enoent, fs)
      else if fs.read_ = true then
        match hostOpenat fs.host p O_RDWR with
        | .error e => (-e, fs)
        | .ok (ino, h1) =>
          let data : Internal :=
            { fd := ino, flags := O_RDWR, references := 0, path := p,
              buffer_set := false, dirty := false, buffer := [],
              open_ := true }
          match Internal.load_buffer data h1 g with
          | (lret, d1) =>
            if lret ≠ 0 then (-lret, { fs with host := h1 })
            else
              let d2 := { d1 with buffer := listResize d1.buffer off.toNat,
                                  dirty := true }
              match Internal.close d2 fs.recipients_ h1 fOk with
              | (cret, _, h2, _) =>
                if cret = 0 then (0, { fs with host := h2 })
                else (-cret, { fs with host := h2 })
      else (-eacces, fs)

/-- asymmetricfs::release (implementation.cpp lines 770-790).  An unknown
handle is ignored with status 0.  Otherwise the refcount is decremented;
on reaching zero the path and id entries are removed and the state is
destroyed, whose destructor runs close (flushing when dirty).  The final
Bool reports whether that flush happened.  Release always returns 0. -/
def Afs.release (fs : Afs) (fh : Nat) (fOk : Bool) : Int × Afs × Bool :=
  match lookupA fs.open_fds_ fh with
  | none => (0, fs, false)
  | some st =>
    let n := st.references - 1
    if n = 0 then
      let paths! := eraseA fs.open_paths_ st.path
      match Internal.close st fs.recipients_ fs.host fOk with
      | (_, _, h!, fl) =>
        (0, { fs with open_paths_ := paths!, host := h!,
                      open_fds_ := eraseA fs.open_fds_ fh }, fl)
    else
      let fds! := setA fs.open_fds_ fh { st with references := n }
      (0, { fs with open_fds_ := fds! }, false)

/-- asymmetricfs::statfd (implementation.cpp lines 431-464), the body of
fgetattr.  A null stat buffer is EFAULT before the handle lookup; an
unknown handle is EBADF.  The reported st_size is the buffer length when
the buffer is set, the backing size plus the buffer length under O_APPEND,
and the backing size otherwise; a backing size that the model cannot
compute (symbolic ciphertext) is `none`. -/
def Afs.statfd (fs : Afs) (fd : Nat) (bufValid : Bool)
    (g : Option (List Nat)) : Int × Afs × Option Nat :=
  if bufValid = false then (-efault, fs, none)
  else
    match lookupA fs.open_fds_ fd with
    | none => (-ebadf, fs, none)
    | some st =>
      match lookupA fs.host.inodes st.fd with
      | none => (-ebadf, fs, none)
      | some c =>
        let hostSize := c.size
        if fs.read_ = true then
          match Internal.load_buffer st fs.host g with
          | (lret, st1) =>
            let fs1 := { fs with open_fds_ := setA fs.open_fds_ fd st1 }
            if lret ≠ 0 then (-lret, fs1, none)
            else if st1.buffer_set = true then
              (0, fs1, some st1.buffer.length)
            else if st1.flags &&& O_APPEND ≠ 0 then
              (0, fs1, hostSize.map (· + st1.buffer.length))
            else (0, fs1, hostSize)
        else if st.buffer_set = true then (0, fs, some st.buffer.length)
        else if st.flags &&& O_APPEND ≠ 0 then
          (0, fs, hostSize.map (· + st.buffer.length))
        else (0, fs, hostSize)

/-- asymmetricfs::fgetattr (implementation.cpp lines 423-429). -/
def Afs.fgetattr (fs : Afs) (fh : Nat) (bufValid : Bool)
    (g : Option (List Nat)) : Int × Afs × Option Nat :=
  Afs.statfd fs fh bufValid g

/-- asymmetricfs::access (implementation.cpp lines 1012-1027).  The
refusal -EACCES for R_OK in write-only mode is computed first, but it is
returned only when the host access check succeeds; a failing host check
returns the host errno instead.  Host access success is modelled as
existence of the path (permission bits are not modelled), failure as
ENOENT. -/
def Afs.access (fs : Afs) (p : String) (mode : Nat) : Int :=
  let ret : Int :=
    if mode &&& R_OK ≠ 0 ∧ fs.read_ = false then -eacces else 0
  match lookupA fs.host.dirents p with
  | some _ => ret
  | none => -enoent

/-- asymmetricfs::rename (implementation.cpp lines 816-850): the host
rename runs first (ENOENT when the source is missing; the destination is
overwritten); only on success is an open entry moved to the new path
(std::map::insert keeps an existing binding for the destination) and the
state's path updated. -/
def Afs.rename (fs : Afs) (o n : String) : Int × Afs :=
  match lookupA fs.host.dirents o with
  | none => (-enoent, fs)
  | some ino =>
    let h! := { fs.host with dirents := setA (eraseA fs.host.dirents o) n ino }
    match lookupA fs.open_paths_ o with
    | none => (0, { fs with host := h! })
    | some fd =>
      let paths! := eraseA (insertA fs.open_paths_ n fd) o
      let fds! :=
        match lookupA fs.open_fds_ fd with
        | some st => setA fs.open_fds_ fd { st with path := n }
        | none => fs.open_fds_
      (0, { fs with host := h!, open_paths_ := paths!, open_fds_ := fds! })

/-- One callback invocation with its oracle inputs, for statements that
quantify over operation sequences. -/
inductive Op where
  | create (p : String) (flags : Nat) : Op
  | openf (p : String) (flags : Nat) : Op
  | read (fh : Nat) (size : Nat) (off : Int) (g : Option (List Nat)) : Op
  | write (fh : Nat) (buf : List Nat) (off : Int) : Op
  | truncate (p : String) (off : Int) (g : Option (List Nat))
      (fOk : Bool) : Op
  | ftruncate (fh : Nat) (off : Int) (g : Option (List Nat)) : Op
  | rename (o n : String) : Op
  | release (fh : Nat) (fOk : Bool) : Op
  deriving DecidableEq

/-- State transition of one callback. -/
def Afs.step (fs : Afs) : Op → Afs
  | .create p f => (Afs.create fs p f).2.1
  | .openf p f => (Afs.openf fs p f).2.1
  | .read fh sz off g => (Afs.read fs fh sz off g).2.1
  | .write fh buf off => (Afs.write fs fh buf off).2
  | .truncate p off g fOk => (Afs.truncate fs p off g fOk).2
  | .ftruncate fh off g => (Afs.ftruncate fs fh off g).2
  | .rename o n => (Afs.rename fs o n).2
  | .release fh fOk => (Afs.release fs fh fOk).2.1

/-- The handle id allocated by a transition, if one was: next_fd() is
called exactly when the counter advances, and it hands out the old
counter value (implementation.cpp lines 263-265). -/
def allocOf (fs fs! : Afs) : Option Nat :=
  if fs!.next_ = fs.next_ then none else some fs.next_

/-- Handle ids allocated along a run of callbacks, in order. -/
def runAlloc : Afs → List Op → List Nat
  | _, [] => []
  | fs, op :: t =>
    match allocOf fs (Afs.step fs op) with
    | some a => a :: runAlloc (Afs.step fs op) t
    | none => runAlloc (Afs.step fs op) t

/-! Further helper lemmas about the embedded operations. -/

theorem lookupA_insertA_self {α β : Type} [DecidableEq α]
    {l : List (α × β)} {k : α} (v : β) (h : lookupA l k = none) :
    lookupA (insertA l k v) k = some v := by
  unfold insertA
  rw [h]
  induction l with
  | nil => simp [lookupA]
  | cons p t ih =>
    obtain ⟨k0, v0⟩ := p
    by_cases hk : k0 = k
    · simp [lookupA, hk] at h
    · simp only [lookupA, hk] at h
      simp only [List.cons_append, lookupA, if_neg hk]
      exact ih h

theorem nat_or_and (a b c : Nat) : (a ||| b) &&& c = (a &&& c) ||| (b &&& c) := by
  apply Nat.eq_of_testBit_eq
  intro i
  rcases h1 : a.testBit i with _ | _ <;>
    rcases h2 : b.testBit i with _ | _ <;>
      rcases h3 : c.testBit i with _ | _ <;>
        simp [Nat.testBit_or, Nat.testBit_and, h1, h2, h3]

theorem writeBytes_segment (l : List Nat) (off : Nat) (bs : List Nat) :
    ((writeBytes l off bs).drop off).take bs.length = bs := by
  unfold writeBytes
  have hlen : ((listResize l (max l.length (off + bs.length))).take off).length
      = off := by
    simp [listResize_length]
  rw [List.append_assoc, List.drop_left' hlen, List.take_left]

theorem writeBytes_zero_take (l : List Nat) (bs : List Nat) :
    (writeBytes l 0 bs).take bs.length = bs := by
  unfold writeBytes
  simp only [List.take_zero, List.nil_append, Nat.zero_add]
  exact List.take_left bs _

theorem load_buffer_of_set {st : Internal} (h : st.buffer_set = true)
    (hfs : HostFs) (g : Option (List Nat)) :
    Internal.load_buffer st hfs g = (0, st) := by
  unfold Internal.load_buffer
  rw [h]
  rfl

/-! Concrete mounts used as witnesses and counterexamples.  `host0` is a
backing directory holding one pre-existing (ciphertext) file `/f` of
nonzero size. -/

def host0 : HostFs :=
  { dirents := [("/f", 0)], inodes := [(0, .bytes [1, 2, 3])], nextIno := 1 }

/-- A freshly constructed write-only mount over `host0`. -/
def fsWO : Afs :=
  { read_ := false, next_ := 0, open_paths_ := [], open_fds_ := [],
    recipients_ := ["K"], host := host0 }

/-- A per-file state with a known plaintext buffer of three bytes. -/
def iKnown : Internal :=
  { fd := 0, flags := O_RDWR, references := 1, path := "/f",
    buffer_set := true, dirty := false, buffer := [10, 20, 30],
    open_ := true }

/-- A read-enabled mount with `/f` open under handle 0 and its buffer
known to be `[10, 20, 30]`. -/
def fsRE : Afs :=
  { read_ := true, next_ := 1, open_paths_ := [("/f", 0)],
    open_fds_ := [(0, iKnown)], recipients_ := ["K"], host := host0 }

/-- The same open state in a write-only mount. -/
def fsWOopen : Afs :=
  { read_ := false, next_ := 1, open_paths_ := [("/f", 0)],
    open_fds_ := [(0, iKnown)], recipients_ := ["K"], host := host0 }

/-- C1: with the known buffer [10, 20, 30], reading 2 bytes at offset 1
must, per the claim, return 2 and copy [20, 30] (the bytes starting at
offset 1) in both modes.  The write-only branch does exactly that, but
the read-enabled branch returns count 2 while copying [10, 20] - the
first 2 bytes of the buffer - because implementation.cpp line 685 copies
from str.data() instead of str.data() + offset. -/
theorem read_offset_bug :
    Afs.read fsRE 0 2 1 none = (2, fsRE, [10, 20]) ∧
    Afs.read fsWOopen 0 2 1 none = (2, fsWOopen, [20, 30]) := by
  constructor <;> rfl

/-- C6 counterexample: with read_enabled = false and R_OK requested, the
claim demands EACCES regardless of the host result, but on a missing path
the host access check fails and its errno ENOENT is returned instead. -/
theorem access_host_error_cex :
    Afs.access fsWO "/missing" R_OK = -enoent ∧
    Afs.access fsWO "/missing" R_OK ≠ -eacces := by
  constructor <;> decide

/-- C6 as amended: when R_OK is requested in write-only mode and the host
access check succeeds (the path exists on the backing store), access
returns -EACCES. -/
theorem access_readonly_refusal (fs : Afs) (p : String) (mode : Nat)
    (ino : Nat) (hm : mode &&& R_OK ≠ 0) (hr : fs.read_ = false)
    (hp : lookupA fs.host.dirents p = some ino) :
    Afs.access fs p mode = -eacces := by
  unfold Afs.access
  rw [hp]
  simp [hm, hr]

/-- Witness for access_readonly_refusal at the concrete write-only mount:
`/f` exists on the backing store. -/
theorem access_readonly_refusal_witness :
    Afs.access fsWO "/f" R_OK = -eacces :=
  access_readonly_refusal fsWO "/f" R_OK 0 (by decide) (by decide) (by decide)

/-- C7: for a valid handle, write with an empty input returns 0 and
changes nothing (this check precedes the offset check, as in the source);
with nonempty input and negative offset it returns -EINVAL; otherwise it
returns the size, marks the state dirty, rewrites the buffer to the
resize-then-memcpy image - whose length is max(buffer.size, offset+size)
and which carries the input bytes at the offset - and leaves the backing
store untouched. -/
theorem write_contract (fs : Afs) (fh : Nat) (st : Internal)
    (buf : List Nat) (off : Int)
    (hlk : lookupA fs.open_fds_ fh = some st) :
    (buf = [] → Afs.write fs fh buf off = (0, fs)) ∧
    (buf ≠ [] → off < 0 → Afs.write fs fh buf off = (-einval, fs)) ∧
    (buf ≠ [] → 0 ≤ off →
      Afs.write fs fh buf off = ((buf.length : Int), { fs with open_fds_ := setA fs.open_fds_ fh { st with dirty := true, buffer := writeBytes st.buffer off.toNat buf } }) ∧
      (writeBytes st.buffer off.toNat buf).length = max st.buffer.length (off.toNat + buf.length) ∧
      ((writeBytes st.buffer off.toNat buf).drop off.toNat).take buf.length = buf ∧
      (Afs.write fs fh buf off).2.host = fs.host) := by
  refine ⟨fun hb => ?_, fun hb hoff => ?_, fun hb hoff => ?_⟩
  · subst hb
    simp [Afs.write, hlk]
  · have hlen : ¬(buf.length = 0) := by
      simpa using hb
    simp [Afs.write, hlk, hlen, hoff]
  · have hlen : ¬(buf.length = 0) := by
      simpa using hb
    have hnneg : ¬(off < 0) := by omega
    refine ⟨?_, writeBytes_length _ _ _, writeBytes_segment _ _ _, ?_⟩
    · simp [Afs.write, hlk, hlen, hnneg]
    · simp [Afs.write, hlk, hlen, hnneg]

/-- Witness for write_contract on the concrete read-enabled mount. -/
theorem write_contract_witness :
    ([5, 6] = ([] : List Nat) → Afs.write fsRE 0 [5, 6] 1 = (0, fsRE)) ∧
    ([5, 6] ≠ ([] : List Nat) → (1 : Int) < 0 → Afs.write fsRE 0 [5, 6] 1 = (-einval, fsRE)) ∧
    ([5, 6] ≠ ([] : List Nat) → (0 : Int) ≤ 1 →
      Afs.write fsRE 0 [5, 6] 1 = ((([5, 6] : List Nat).length : Int), { fsRE with open_fds_ := setA fsRE.open_fds_ 0 { iKnown with dirty := true, buffer := writeBytes iKnown.buffer (1 : Int).toNat [5, 6] } }) ∧
      (writeBytes iKnown.buffer (1 : Int).toNat [5, 6]).length = max iKnown.buffer.length ((1 : Int).toNat + ([5, 6] : List Nat).length) ∧
      ((writeBytes iKnown.buffer (1 : Int).toNat [5, 6]).drop (1 : Int).toNat).take ([5, 6] : List Nat).length = [5, 6] ∧
      (Afs.write fsRE 0 [5, 6] 1).2.host = fsRE.host) :=
  write_contract fsRE 0 iKnown [5, 6] 1 (by decide)

/-- C10: release with an unknown handle id returns 0 and leaves the state
unchanged with no flush, while the other handle-indexed callbacks -
read, write, ftruncate and fgetattr - all return -EBADF and leave the
state unchanged. -/
theorem unknown_handle_behavior (fs : Afs) (fh : Nat) (sz : Nat)
    (off : Int) (bs : List Nat) (g : Option (List Nat)) (fOk : Bool)
    (h : lookupA fs.open_fds_ fh = none) :
    Afs.release fs fh fOk = (0, fs, false) ∧
    Afs.read fs fh sz off g = (-ebadf, fs, []) ∧
    Afs.write fs fh bs off = (-ebadf, fs) ∧
    Afs.ftruncate fs fh off g = (-ebadf, fs) ∧
    Afs.fgetattr fs fh true g = (-ebadf, fs, none) := by
  refine ⟨?_, ?_, ?_, ?_, ?_⟩ <;>
    simp [Afs.release, Afs.read, Afs.write, Afs.ftruncate, Afs.truncatefd,
      Afs.fgetattr, Afs.statfd, h]

/-- Witness for unknown_handle_behavior: handle 7 is not open on fsRE. -/
theorem unknown_handle_behavior_witness :
    Afs.release fsRE 7 true = (0, fsRE, false) ∧
    Afs.read fsRE 7 4 0 none = (-ebadf, fsRE, []) ∧
    Afs.write fsRE 7 [1] 0 = (-ebadf, fsRE) ∧
    Afs.ftruncate fsRE 7 0 none = (-ebadf, fsRE) ∧
    Afs.fgetattr fsRE 7 true none = (-ebadf, fsRE, none) :=
  unknown_handle_behavior fsRE 7 4 0 [1] none true (by decide)

/-- C4: release always returns 0, for either flush outcome.  For a table
entry (which always has refcount ≥ 1 and an open descriptor): when the
refcount is 1 it drops to zero, both the path entry and the id entry are
removed, and the destroyed state flushes exactly when it was dirty (a
clean state leaves the backing store untouched); when the refcount
exceeds 1 it is merely decremented and nothing else changes. -/
theorem release_contract (fs : Afs) (fh : Nat) (st : Internal) (fOk : Bool)
    (hlk : lookupA fs.open_fds_ fh = some st) (hop : st.open_ = true) :
    (Afs.release fs fh fOk).1 = 0 ∧
    (st.references = 1 →
      lookupA (Afs.release fs fh fOk).2.1.open_paths_ st.path = none ∧
      lookupA (Afs.release fs fh fOk).2.1.open_fds_ fh = none ∧
      (Afs.release fs fh fOk).2.2 = st.dirty ∧
      (st.dirty = false → (Afs.release fs fh fOk).2.1.host = fs.host)) ∧
    (1 < st.references →
      (Afs.release fs fh fOk).2.2 = false ∧
      (Afs.release fs fh fOk).2.1.open_fds_ = setA fs.open_fds_ fh { st with references := st.references - 1 } ∧
      (Afs.release fs fh fOk).2.1.open_paths_ = fs.open_paths_ ∧
      (Afs.release fs fh fOk).2.1.host = fs.host) := by
  unfold Afs.release
  rw [hlk]
  by_cases h1 : st.references = 1
  · simp only [h1]
    unfold Internal.close
    rw [hop]
    rcases hd : st.dirty with _ | _
    · simp [lookupA_eraseA_self, hd]
    · simp [lookupA_eraseA_self, hd]
  · have h2 : ¬(st.references - 1 = 0) ∨ st.references = 0 := by omega
    rcases h2 with h2 | h2
    · simp [h2, h1]
    · rw [h2]
      simp only [Nat.zero_sub]
      unfold Internal.close
      rw [hop]
      rcases hd : st.dirty with _ | _
      · simp [lookupA_eraseA_self, hd, h1, h2]
      · simp [lookupA_eraseA_self, hd, h1, h2]

/-- Witness for release_contract: the single-handle state iKnown is
released from fsRE with a failing flush oracle. -/
theorem release_contract_witness :
    (Afs.release fsRE 0 false).1 = 0 ∧
    (iKnown.references = 1 →
      lookupA (Afs.release fsRE 0 false).2.1.open_paths_ iKnown.path = none ∧
      lookupA (Afs.release fsRE 0 false).2.1.open_fds_ 0 = none ∧
      (Afs.release fsRE 0 false).2.2 = iKnown.dirty ∧
      (iKnown.dirty = false → (Afs.release fsRE 0 false).2.1.host = fsRE.host)) ∧
    (1 < iKnown.references →
      (Afs.release fsRE 0 false).2.2 = false ∧
      (Afs.release fsRE 0 false).2.1.open_fds_ = setA fsRE.open_fds_ 0 { iKnown with references := iKnown.references - 1 } ∧
      (Afs.release fsRE 0 false).2.1.open_paths_ = fsRE.open_paths_ ∧
      (Afs.release fsRE 0 false).2.1.host = fsRE.host) :=
  release_contract fsRE 0 iKnown false (by decide) (by decide)

/-- C5 counterexample: in the write-only mount over a pre-existing `/f`,
an open requesting read access does not fail with EACCES as the claim
states: with O_CREAT among the flags it fails with the host's EEXIST
(because O_EXCL was ORed in), and without O_CREAT the open itself
succeeds. -/
theorem open_writeonly_cex :
    (Afs.openf fsWO "/f" (O_CREAT ||| O_RDWR)).1 = -eexist ∧
    (Afs.openf fsWO "/f" (O_CREAT ||| O_RDWR)).1 ≠ -eacces ∧
    (Afs.openf fsWO "/f" O_RDONLY).1 = 0 := by
  refine ⟨by decide, by decide, by decide⟩

/-- C5 as amended: in write-only mode, for a path that exists on the
backing store and is not currently open, an open requesting read access
(O_RDONLY or O_RDWR) with O_CREAT among the flags has O_EXCL ORed in and
fails with the host's EEXIST, leaving the state unchanged; without
O_CREAT the open succeeds, and when the pre-existing file is nonempty a
subsequent read through the new handle is refused with EACCES. -/
theorem open_writeonly_amended (fs : Afs) (p : String) (flags : Nat)
    (ino : Nat) (c : BContent)
    (hr : fs.read_ = false)
    (hno : lookupA fs.open_paths_ p = none)
    (hex : lookupA fs.host.dirents p = some ino)
    (hc : lookupA fs.host.inodes ino = some c)
    (hfresh : lookupA fs.open_fds_ fs.next_ = none)
    (hread : flags &&& O_ACCMODE = O_RDONLY ∨ flags &&& O_ACCMODE = O_RDWR) :
    (flags &&& O_CREAT ≠ 0 → Afs.openf fs p flags = (-eexist, fs, none)) ∧
    (flags &&& O_CREAT = 0 →
      (Afs.openf fs p flags).1 = 0 ∧
      (Afs.openf fs p flags).2.2 = some fs.next_ ∧
      (c.sizeZero = false → ∀ sz g, ∀ off : Int, 0 ≤ off →
        (Afs.read (Afs.openf fs p flags).2.1 fs.next_ sz off g).1 = -eacces)) := by
  have hfr : (decide (flags &&& O_ACCMODE = O_RDWR) ||
      decide (flags &&& O_ACCMODE = O_RDONLY)) = true := by
    rcases hread with h | h <;> simp [h]
  constructor
  · intro hcreat
    have hce : (flags ||| O_EXCL) &&& O_CREAT ≠ 0 := by
      rw [nat_or_and]
      have hz : O_EXCL &&& O_CREAT = 0 := by decide
      rw [hz, Nat.or_zero]
      exact hcreat
    have hee : (flags ||| O_EXCL) &&& O_EXCL ≠ 0 := by
      intro hx
      have h7 : Nat.testBit ((flags ||| O_EXCL) &&& O_EXCL) 7 = false := by
        rw [hx]
        simp
      rw [Nat.testBit_and, Nat.testBit_or] at h7
      have h128 : Nat.testBit O_EXCL 7 = true := by decide
      rw [h128] at h7
      simp at h7
    simp [Afs.openf, hno, hr, hfr, hcreat, hostOpenat, hex, hce, hee,
      make_rdwr]
  · intro hcreat
    have hnc : ¬(flags &&& O_CREAT ≠ 0 ∧ flags &&& O_EXCL ≠ 0) := by
      intro hx
      exact hx.1 hcreat
    have hopen : Afs.openf fs p flags =
        finishOpen fs p flags ino fs.host := by
      simp [Afs.openf, hno, hr, hfr, hcreat, hostOpenat, hex, hnc,
        make_rdwr]
    rw [hopen]
    unfold finishOpen
    rw [hc]
    refine ⟨rfl, rfl, ?_⟩
    intro hsz sz g off hoff
    have hnneg : ¬(off < 0) := by omega
    have hlk2 : lookupA
        (insertA fs.open_fds_ fs.next_
          { fd := ino, flags := flags, references := 1, path := p,
            buffer_set := c.sizeZero, dirty := false, buffer := [],
            open_ := true }) fs.next_ =
        some { fd := ino, flags := flags, references := 1, path := p,
               buffer_set := c.sizeZero, dirty := false, buffer := [],
               open_ := true } := lookupA_insertA_self _ hfresh
    rw [hsz] at hlk2
    by_cases happ : flags &&& O_APPEND = 0
    · simp [Afs.read, hlk2, hnneg, hr, hsz, happ, hcreat]
    · simp [Afs.read, hlk2, hnneg, hr, hsz, happ]

/-- Witness for open_writeonly_amended: the write-only mount fsWO over
host0, whose `/f` maps to inode 0 with nonempty content, opened with
O_CREAT|O_RDWR (first prong) - the O_CREAT = 0 prong is vacuously
exercised at these flags through the other prong's hypothesis shape, so
the witness instantiates the whole conjunction. -/
theorem open_writeonly_amended_witness :
    ((O_CREAT ||| O_RDWR) &&& O_CREAT ≠ 0 →
      Afs.openf fsWO "/f" (O_CREAT ||| O_RDWR) = (-eexist, fsWO, none)) ∧
    ((O_CREAT ||| O_RDWR) &&& O_CREAT = 0 →
      (Afs.openf fsWO "/f" (O_CREAT ||| O_RDWR)).1 = 0 ∧
      (Afs.openf fsWO "/f" (O_CREAT ||| O_RDWR)).2.2 = some fsWO.next_ ∧
      ((BContent.bytes [1, 2, 3]).sizeZero = false → ∀ sz g, ∀ off : Int,
        0 ≤ off →
        (Afs.read (Afs.openf fsWO "/f" (O_CREAT ||| O_RDWR)).2.1
          fsWO.next_ sz off g).1 = -eacces)) :=
  open_writeonly_amended fsWO "/f" (O_CREAT ||| O_RDWR) 0
    (BContent.bytes [1, 2, 3]) (by decide) (by decide) (by decide)
    (by decide) (by decide) (by decide)

/-- Refcount bump applied by open on an already-open path. -/
def bumpRef (st : Internal) : Internal :=
  { st with references := st.references + 1 }

/-- State image of a successful write of `bs` at `off`. -/
def writtenSt (st : Internal) (off : Nat) (bs : List Nat) : Internal :=
  { st with dirty := true, buffer := writeBytes st.buffer off bs }

/-- C3: opening a path that already has an open-file entry returns the
very same handle id with status 0, increments the shared state's
refcount, and is independent of the flags passed to the new open; a
nonempty write at offset 0 through that shared state is then visible to
a read through the handle id that the second opener received. -/
theorem open_shares_state (fs : Afs) (p : String) (fd0 : Nat)
    (st : Internal) (f1 f2 : Nat) (bs : List Nat)
    (hp : lookupA fs.open_paths_ p = some fd0)
    (hfd : lookupA fs.open_fds_ fd0 = some st)
    (hre : fs.read_ = true)
    (hbs : st.buffer_set = true)
    (hbne : bs ≠ []) :
    Afs.openf fs p f1 = Afs.openf fs p f2 ∧
    (Afs.openf fs p f1).1 = 0 ∧
    (Afs.openf fs p f1).2.2 = some fd0 ∧
    lookupA (Afs.openf fs p f1).2.1.open_fds_ fd0 = some (bumpRef st) ∧
    (Afs.read (Afs.write (Afs.openf fs p f1).2.1 fd0 bs 0).2 fd0 bs.length 0 none).1 = (bs.length : Int) ∧
    (Afs.read (Afs.write (Afs.openf fs p f1).2.1 fd0 bs 0).2 fd0 bs.length 0 none).2.2 = bs := by
  have hopen : ∀ f : Nat, Afs.openf fs p f = (0, { fs with open_fds_ := setA fs.open_fds_ fd0 (bumpRef st) }, some fd0) := by
    intro f
    simp [Afs.openf, hp, hfd, bumpRef]
  have hlen : ¬(bs.length = 0) := by
    simpa using hbne
  have hw : Afs.write (Afs.openf fs p f1).2.1 fd0 bs 0 = ((bs.length : Int), { fs with open_fds_ := setA (setA fs.open_fds_ fd0 (bumpRef st)) fd0 (writtenSt (bumpRef st) 0 bs) }) := by
    rw [hopen f1]
    simp [Afs.write, lookupA_setA_self, hlen, writtenSt]
  have hbs2 : (writtenSt (bumpRef st) 0 bs).buffer_set = true := by
    simpa [writtenSt, bumpRef] using hbs
  have hbuf : (writtenSt (bumpRef st) 0 bs).buffer = writeBytes st.buffer 0 bs := by
    simp [writtenSt, bumpRef]
  have hwb : (writeBytes st.buffer 0 bs).length = max st.buffer.length bs.length := by
    have h0 := writeBytes_length st.buffer 0 bs
    simpa using h0
  have hmin : min (max st.buffer.length bs.length) bs.length = bs.length :=
    Nat.min_eq_right (Nat.le_max_right _ _)
  refine ⟨by rw [hopen f1, hopen f2], by rw [hopen f1], by rw [hopen f1], ?_, ?_, ?_⟩
  · rw [hopen f1]
    exact lookupA_setA_self _ _ _
  · rw [hw]
    simp [Afs.read, lookupA_setA_self, load_buffer_of_set hbs2, hre, hbuf,
      hwb, hlen, hmin, Nat.le_zero]
  · rw [hw]
    simp [Afs.read, lookupA_setA_self, load_buffer_of_set hbs2, hre, hbuf,
      hwb, hlen, hmin, Nat.le_zero, writeBytes_zero_take]

/-- Witness for open_shares_state: a second opener of `/f` on fsRE gets
handle 0 back and sees the byte written through the shared state. -/
theorem open_shares_state_witness :
    Afs.openf fsRE "/f" 1 = Afs.openf fsRE "/f" 2 ∧
    (Afs.openf fsRE "/f" 1).1 = 0 ∧
    (Afs.openf fsRE "/f" 1).2.2 = some 0 ∧
    lookupA (Afs.openf fsRE "/f" 1).2.1.open_fds_ 0 = some (bumpRef iKnown) ∧
    (Afs.read (Afs.write (Afs.openf fsRE "/f" 1).2.1 0 [5] 0).2 0 ([5] : List Nat).length 0 none).1 = ((([5] : List Nat).length : Nat) : Int) ∧
    (Afs.read (Afs.write (Afs.openf fsRE "/f" 1).2.1 0 [5] 0).2 0 ([5] : List Nat).length 0 none).2.2 = [5] :=
  open_shares_state fsRE "/f" 0 iKnown 1 2 [5] (by decide) (by decide)
    (by decide) (by decide) (by decide)

theorem truncatefd_paths (fs : Afs) (fd : Nat) (off : Int)
    (g : Option (List Nat)) :
    (Afs.truncatefd fs fd off g).2.open_paths_ = fs.open_paths_ := by
  unfold Afs.truncatefd
  repeat' (first | rfl | split)

theorem truncatefd_zero_idem (fs : Afs) (fd : Nat) (g : Option (List Nat)) :
    (Afs.truncatefd (Afs.truncatefd fs fd 0 g).2 fd 0 g).2 =
      (Afs.truncatefd fs fd 0 g).2 := by
  rcases hf : lookupA fs.open_fds_ fd with _ | st
  · simp [Afs.truncatefd, hf]
  · rcases hc : lookupA fs.host.inodes st.fd with _ | c
    · simp [Afs.truncatefd, hf, hc]
    · have h1 : Afs.truncatefd fs fd 0 g = (0, { fs with host := { fs.host with inodes := setA fs.host.inodes st.fd (.bytes []) }, open_fds_ := setA fs.open_fds_ fd { st with buffer := [], dirty := true } }) := by
        simp [Afs.truncatefd, hf, hc]
      rw [h1]
      simp [Afs.truncatefd, lookupA_setA_self, setA_setA]

/-- C9: truncating a path to offset 0 twice in succession leaves exactly
the state (handle tables, per-file buffers and flags, and backing store)
that a single truncation leaves, in every mode, whether or not the path
is open, and for every decrypt oracle and flush outcome. -/
theorem truncate_zero_idempotent (fs : Afs) (p : String)
    (g : Option (List Nat)) (fOk : Bool) :
    (Afs.truncate (Afs.truncate fs p 0 g fOk).2 p 0 g fOk).2 =
      (Afs.truncate fs p 0 g fOk).2 := by
  rcases hp : lookupA fs.open_paths_ p with _ | fd
  · rcases hd : lookupA fs.host.dirents p with _ | ino
    · have h1 : Afs.truncate fs p 0 g fOk = (-enoent, fs) := by
        simp [Afs.truncate, hp, hd]
      simp [h1]
    · have h1 : Afs.truncate fs p 0 g fOk = (0, { fs with host := { fs.host with inodes := setA fs.host.inodes ino (.bytes []) } }) := by
        simp [Afs.truncate, hp, hd]
      rw [h1]
      simp [Afs.truncate, hp, hd, setA_setA]
  · have h1 : Afs.truncate fs p 0 g fOk = Afs.truncatefd fs fd 0 g := by
      simp [Afs.truncate, hp]
    rw [h1]
    have hp1 : lookupA (Afs.truncatefd fs fd 0 g).2.open_paths_ p =
        some fd := by
      rw [truncatefd_paths]
      exact hp
    have h2 : Afs.truncate (Afs.truncatefd fs fd 0 g).2 p 0 g fOk =
        Afs.truncatefd (Afs.truncatefd fs fd 0 g).2 fd 0 g := by
      simp [Afs.truncate, hp1]
    rw [h2]
    exact truncatefd_zero_idem fs fd g

theorem step_next (fs : Afs) (op : Op) :
    (Afs.step fs op).next_ = fs.next_ ∨
    (Afs.step fs op).next_ = fs.next_ + 1 := by
  cases op with
  | create p f =>
    show (Afs.create fs p f).2.1.next_ = _ ∨ (Afs.create fs p f).2.1.next_ = _
    unfold Afs.create finishCreate
    repeat' (first | (left; rfl) | (right; rfl) | split | dsimp only)
  | openf p f =>
    show (Afs.openf fs p f).2.1.next_ = _ ∨ (Afs.openf fs p f).2.1.next_ = _
    unfold Afs.openf finishOpen
    repeat' (first | (left; rfl) | (right; rfl) | split | dsimp only)
  | read fh sz off g =>
    show (Afs.read fs fh sz off g).2.1.next_ = _ ∨ _
    unfold Afs.read
    repeat' (first | (left; rfl) | (right; rfl) | split | dsimp only)
  | write fh buf off =>
    show (Afs.write fs fh buf off).2.next_ = _ ∨ _
    unfold Afs.write
    repeat' (first | (left; rfl) | (right; rfl) | split | dsimp only)
  | truncate p off g fOk =>
    show (Afs.truncate fs p off g fOk).2.next_ = _ ∨ _
    unfold Afs.truncate Afs.truncatefd
    repeat' (first | (left; rfl) | (right; rfl) | split | dsimp only)
  | ftruncate fh off g =>
    show (Afs.ftruncate fs fh off g).2.next_ = _ ∨ _
    unfold Afs.ftruncate Afs.truncatefd
    repeat' (first | (left; rfl) | (right; rfl) | split | dsimp only)
  | rename o n =>
    show (Afs.rename fs o n).2.next_ = _ ∨ _
    unfold Afs.rename
    repeat' (first | (left; rfl) | (right; rfl) | split | dsimp only)
  | release fh fOk =>
    show (Afs.release fs fh fOk).2.1.next_ = _ ∨ _
    unfold Afs.release
    repeat' (first | (left; rfl) | (right; rfl) | split | dsimp only)

theorem allocOf_some {fs fs! : Afs} {a : Nat}
    (h : allocOf fs fs! = some a) :
    a = fs.next_ ∧ fs!.next_ ≠ fs.next_ := by
  unfold allocOf at h
  by_cases he : fs!.next_ = fs.next_
  · simp [he] at h
  · simp [he] at h
    exact ⟨h.symm, he⟩

theorem runAlloc_lb (ops : List Op) :
    ∀ (fs : Afs) (a : Nat), a ∈ runAlloc fs ops → fs.next_ ≤ a := by
  induction ops with
  | nil =>
    intro fs a h
    simp [runAlloc] at h
  | cons op t ih =>
    intro fs a h
    rcases hA : allocOf fs (Afs.step fs op) with _ | a0
    · simp only [runAlloc, hA] at h
      have h2 := ih (Afs.step fs op) a h
      rcases step_next fs op with he | he <;> omega
    · simp only [runAlloc, hA, List.mem_cons] at h
      rcases h with h | h
      · have ha0 := (allocOf_some hA).1
        omega
      · have h2 := ih (Afs.step fs op) a h
        rcases step_next fs op with he | he <;> omega

theorem runAlloc_chain (ops : List Op) :
    ∀ fs : Afs, List.Chain' (· < ·) (runAlloc fs ops) := by
  induction ops with
  | nil =>
    intro fs
    simp [runAlloc]
  | cons op t ih =>
    intro fs
    rcases hA : allocOf fs (Afs.step fs op) with _ | a0
    · simp only [runAlloc, hA]
      exact ih _
    · simp only [runAlloc, hA]
      rw [List.chain'_cons']
      refine ⟨?_, ih _⟩
      intro b hb
      have hmem : b ∈ runAlloc (Afs.step fs op) t := by
        rcases hh : (runAlloc (Afs.step fs op) t).head? with _ | c
        · rw [hh] at hb
          simp at hb
        · rw [hh] at hb
          simp at hb
          subst hb
          exact List.mem_of_mem_head? hh
      have hlb := runAlloc_lb t (Afs.step fs op) b hmem
      obtain ⟨ha0, hne⟩ := allocOf_some hA
      rcases step_next fs op with he | he
      · exact absurd he hne
      · omega

/-- C8: along any run of callbacks from any mount state, the handle ids
handed out by next_fd on successful open and create calls form a strictly
increasing (hence non-negative and never-repeating) sequence. -/
theorem handle_ids_monotone (fs : Afs) (ops : List Op) :
    List.Chain' (· < ·) (runAlloc fs ops) ∧ (runAlloc fs ops).Nodup := by
  refine ⟨runAlloc_chain ops fs, ?_⟩
  have hpw := (List.chain'_iff_pairwise).mp (runAlloc_chain ops fs)
  exact hpw.imp (fun h => Nat.ne_of_lt h)

/-- Every open-file state in the table has its buffer set. -/
def BufSetInv (fs : Afs) : Prop :=
  ∀ q ∈ fs.open_fds_, q.2.buffer_set = true

/-- The spec's invariant 3: dirty implies buffer_set, for every
open-file state in the table. -/
def DirtyImpSet (fs : Afs) : Prop :=
  ∀ q ∈ fs.open_fds_, q.2.dirty = true → q.2.buffer_set = true

theorem dis_setA_keep {fs2 : Afs} {l : List (Nat × Internal)} {k : Nat}
    {v : Internal} (hfds : fs2.open_fds_ = setA l k v)
    (hl : ∀ q ∈ l, q.2.buffer_set = true)
    (hv : v.dirty = true → v.buffer_set = true) : DirtyImpSet fs2 := by
  intro q hq hd
  rw [hfds] at hq
  rcases mem_setA hq with h1 | h1
  · subst h1
    exact hv hd
  · exact hl q h1

theorem dis_create (fs : Afs) (p : String) (f : Nat) (h : BufSetInv fs) :
    DirtyImpSet (Afs.create fs p f).2.1 := by
  have haux : ∀ ino hh, DirtyImpSet (finishCreate fs p (f ||| O_CREAT) ino hh).2.1 := by
    intro ino hh
    unfold finishCreate
    try dsimp only
    intro q hq hd
    rcases mem_insertA hq with h1 | h1
    · subst h1
      rfl
    · exact h q h1
  unfold Afs.create
  try dsimp only
  repeat'
    (first
      | (exact haux _ _)
      | (exact fun q hq _ => h q hq)
      | split
      | dsimp only)

theorem dis_openf (fs : Afs) (p : String) (f : Nat) (h : BufSetInv fs) :
    DirtyImpSet (Afs.openf fs p f).2.1 := by
  unfold Afs.openf
  rcases h1 : lookupA fs.open_paths_ p with _ | fd0
  · simp only [h1]
    have haux : ∀ flags ino hh, DirtyImpSet (finishOpen fs p flags ino hh).2.1 := by
      intro flags ino hh
      unfold finishOpen
      try dsimp only
      intro q hq hd
      rcases mem_insertA hq with h2 | h2
      · subst h2
        simp at hd
      · exact h q h2
    repeat'
      (first
        | (exact haux _ _ _)
        | (exact fun q hq _ => h q hq)
        | split
        | dsimp only)
  · simp only [h1]
    rcases h2 : lookupA fs.open_fds_ fd0 with _ | st
    · simp only [h2]
      exact fun q hq _ => h q hq
    · simp only [h2]
      try dsimp only
      refine dis_setA_keep rfl h (fun _ => ?_)
      simpa using h _ (lookupA_mem h2)

theorem dis_read (fs : Afs) (fh sz : Nat) (off : Int)
    (g : Option (List Nat)) (h : BufSetInv fs) :
    DirtyImpSet (Afs.read fs fh sz off g).2.1 := by
  unfold Afs.read
  rcases h1 : lookupA fs.open_fds_ fh with _ | st
  · simp only [h1]
    exact fun q hq _ => h q hq
  · simp only [h1]
    have hbs : st.buffer_set = true := h _ (lookupA_mem h1)
    by_cases h2 : off < 0
    · simp only [if_pos h2]
      exact fun q hq _ => h q hq
    · simp only [if_neg h2]
      rcases h3 : fs.read_ with _ | _
      · try simp only [h3]
        try dsimp only
        repeat'
          (first
            | (exact fun q hq _ => h q hq)
            | (exact absurd trivial (by assumption))
            | (exact Bool.noConfusion (show true = false by assumption))
            | (exact Bool.noConfusion (show false = true by assumption))
            | split
            | dsimp only)
      · try simp only [h3]
        rw [load_buffer_of_set hbs]
        try dsimp only
        repeat'
          (first
            | (exact dis_setA_keep rfl h (fun _ => hbs))
            | (exact absurd trivial (by assumption))
            | (exact Bool.noConfusion (show true = false by assumption))
            | (exact Bool.noConfusion (show false = true by assumption))
            | split
            | dsimp only)

theorem dis_write (fs : Afs) (fh : Nat) (buf : List Nat) (off : Int)
    (h : BufSetInv fs) : DirtyImpSet (Afs.write fs fh buf off).2 := by
  unfold Afs.write
  rcases h1 : lookupA fs.open_fds_ fh with _ | st
  · simp only [h1]
    exact fun q hq _ => h q hq
  · simp only [h1]
    have hbs : st.buffer_set = true := h _ (lookupA_mem h1)
    try dsimp only
    repeat'
      (first
        | (exact dis_setA_keep rfl h (fun _ => by simpa using hbs))
        | (exact fun q hq _ => h q hq)
        | (exact absurd trivial (by assumption))
        | (exact Bool.noConfusion (show true = false by assumption))
        | (exact Bool.noConfusion (show false = true by assumption))
        | split
        | dsimp only)

theorem dis_truncatefd (fs : Afs) (fd : Nat) (off : Int)
    (g : Option (List Nat)) (h : BufSetInv fs) :
    DirtyImpSet (Afs.truncatefd fs fd off g).2 := by
  unfold Afs.truncatefd
  rcases h1 : lookupA fs.open_fds_ fd with _ | st
  · simp only [h1]
    exact fun q hq _ => h q hq
  · simp only [h1]
    have hbs : st.buffer_set = true := h _ (lookupA_mem h1)
    by_cases h2 : off < 0
    · simp only [if_pos h2]
      exact fun q hq _ => h q hq
    · simp only [if_neg h2]
      by_cases h3 : off = 0
      · simp only [if_pos h3]
        rcases h4 : lookupA fs.host.inodes st.fd with _ | c
        · simp only [h4]
          exact fun q hq _ => h q hq
        · simp only [h4]
          try dsimp only
          exact dis_setA_keep rfl h (fun _ => by simpa using hbs)
      · simp only [if_neg h3]
        rcases h5 : fs.read_ with _ | _
        · try simp only [h5]
          exact fun q hq _ => h q hq
        · try simp only [h5]
          rw [load_buffer_of_set hbs]
          try dsimp only
          repeat'
            (first
              | (exact dis_setA_keep rfl h (fun _ => by simpa using hbs))
              | (exact absurd trivial (by assumption))
              | (exact Bool.noConfusion (show true = false by assumption))
              | (exact Bool.noConfusion (show false = true by assumption))
              | split
              | dsimp only)

theorem dis_truncate (fs : Afs) (p : String) (off : Int)
    (g : Option (List Nat)) (fOk : Bool) (h : BufSetInv fs) :
    DirtyImpSet (Afs.truncate fs p off g fOk).2 := by
  unfold Afs.truncate
  by_cases h1 : off < 0
  · simp only [if_pos h1]
    exact fun q hq _ => h q hq
  · simp only [if_neg h1]
    rcases h2 : lookupA fs.open_paths_ p with _ | fd
    · simp only [h2]
      repeat'
        (first
          | (exact fun q hq _ => h q hq)
          | (exact absurd trivial (by assumption))
          | (exact Bool.noConfusion (show true = false by assumption))
          | (exact Bool.noConfusion (show false = true by assumption))
          | split
          | dsimp only)
    · simp only [h2]
      exact dis_truncatefd fs fd off g h

theorem dis_rename (fs : Afs) (o n : String) (h : BufSetInv fs) :
    DirtyImpSet (Afs.rename fs o n).2 := by
  unfold Afs.rename
  rcases h1 : lookupA fs.host.dirents o with _ | ino
  · simp only [h1]
    exact fun q hq _ => h q hq
  · simp only [h1]
    rcases h2 : lookupA fs.open_paths_ o with _ | fd
    · simp only [h2]
      exact fun q hq _ => h q hq
    · simp only [h2]
      rcases h3 : lookupA fs.open_fds_ fd with _ | st
      · simp only [h3]
        exact fun q hq _ => h q hq
      · simp only [h3]
        try dsimp only
        exact dis_setA_keep rfl h
          (fun _ => by simpa using h _ (lookupA_mem h3))

theorem dis_release (fs : Afs) (fh : Nat) (fOk : Bool) (h : BufSetInv fs) :
    DirtyImpSet (Afs.release fs fh fOk).2.1 := by
  unfold Afs.release
  rcases h1 : lookupA fs.open_fds_ fh with _ | st
  · simp only [h1]
    exact fun q hq _ => h q hq
  · simp only [h1]
    have hbs : st.buffer_set = true := h _ (lookupA_mem h1)
    try dsimp only
    by_cases h2 : st.references - 1 = 0
    · simp only [if_pos h2]
      rcases h3 : Internal.close st fs.recipients_ fs.host fOk with
        ⟨cret, st2, h4, fl⟩
      simp only [h3]
      intro q hq hd
      exact h q (mem_eraseA hq)
    · simp only [if_neg h2]
      exact dis_setA_keep rfl h (fun _ => by simpa using hbs)

/-- C2 counterexample: from a fresh write-only mount over a pre-existing
nonempty `/f`, opening it write-only and then ftruncating the open file
to offset 0 produces a table entry with dirty = true and buffer_set =
false (implementation.cpp:351-359 sets dirty without touching
buffer_set), so the invariant dirty implies buffer_set does not hold
after the truncation. -/
theorem truncate_zero_unset_buffer_cex :
    ∃ q ∈ (Afs.ftruncate (Afs.openf fsWO "/f" O_WRONLY).2.1 0 0
      none).2.open_fds_, q.2.dirty = true ∧ q.2.buffer_set = false := by
  decide

/-- C2 as amended: from any state in which every open-file entry has its
buffer set, a single operation of any kind (open, create, read, write,
truncate, ftruncate, rename, release) leaves every open-file entry
satisfying dirty implies buffer_set; in particular truncating to offset 0
an open file whose buffer is set preserves the invariant.  From an entry
whose buffer is not set (a file opened on pre-existing nonzero-size
content), write and truncate-to-0 set dirty while leaving buffer_set
false, so the unconditional per-state invariant of the claim fails. -/
theorem step_dirty_invariant_amended (fs : Afs) (op : Op)
    (h : BufSetInv fs) : DirtyImpSet (Afs.step fs op) := by
  cases op with
  | create p f => exact dis_create fs p f h
  | openf p f => exact dis_openf fs p f h
  | read fh sz off g => exact dis_read fs fh sz off g h
  | write fh buf off => exact dis_write fs fh buf off h
  | truncate p off g fOk => exact dis_truncate fs p off g fOk h
  | ftruncate fh off g => exact dis_truncatefd fs fh off g h
  | rename o n => exact dis_rename fs o n h
  | release fh fOk => exact dis_release fs fh fOk h

/-- Witness for step_dirty_invariant_amended: fsRE has a single entry
with its buffer set, and a write through it keeps dirty implying
buffer_set. -/
theorem step_dirty_invariant_amended_witness :
    DirtyImpSet (Afs.step fsRE (Op.write 0 [7] 0)) :=
  step_dirty_invariant_amended fsRE (Op.write 0 [7] 0)
    (by unfold BufSetInv; decide)
